import Mathlib

/-!
A verification development for the holo-build package builder.

The Go sources are embedded shallowly:

* `src/holo-build/common/build.go` — the build orchestrator: `Package.Build`,
  `doMagicalHoloIntegration`, `postponeUnmaterializableFSMetadata`,
  `materializeFSEntries`.
* `src/holo-build/rpm/generator.go` — the RPM generator: `Validate`, `Build`,
  `appendAlignedTo8Byte`.
* the pacman generator (`RecommendedFileName`, `fullVersionString`,
  `writePKGINFO`, `compileBackupMarkers`, in-memory and filesystem-rooted
  variants).

Pure functions become Lean functions.  Effectful steps (filesystem
operations, subprocess calls, the wall clock, the tool-version banner) are
passed in explicitly as parameters, so every definition is executable on
concrete inputs.  Parts of the repository that the provided sources only
call into (the filesystem-tree type and its walk, the metadata-postponing
helper, the relation renderers) are modelled from the specification text;
each such definition says so in its doc comment.
-/

set_option maxRecDepth 100000

/-! ## Data model -/

/-- Models the `common.Architecture` enum of the Package model
(any, i386, x86_64, armv5, armv6h, armv7h, aarch64). -/
inductive Architecture where
  | any
  | i386
  | x86_64
  | armv5
  | armv6h
  | armv7h
  | aarch64
deriving DecidableEq

/-- Modelled from the spec: the owner (or group) of a filesystem entry is
"either numeric id or symbolic name — mutually exclusive with id". -/
inductive OwnerSpec where
  | numeric (id : Nat)
  | symbolic (name : String)

/-- Modelled from the spec: metadata of a filesystem node — "mode (permission
bits), owner/group (each either numeric id or symbolic name)".  The
modification timestamp plays no role in the embedded functions and is
omitted. -/
structure FSNodeMetadata where
  Mode : Nat
  Owner : OwnerSpec
  Group : OwnerSpec

/-- Default metadata, mirroring the Go zero value plus an explicit mode
(e.g. `common.FSNodeMetadata{Mode: 0644}`). -/
def FSNodeMetadata.withMode (mode : Nat) : FSNodeMetadata :=
  { Mode := mode, Owner := .numeric 0, Group := .numeric 0 }

mutual
/-- Modelled from the spec: a node of the Filesystem Tree Model is a
directory (children plus metadata), a regular file (content plus metadata)
or a symlink (target path, "metadata minus content"). -/
inductive FSNode where
  | dir (meta : FSNodeMetadata) (entries : FSEntries)
  | file (meta : FSNodeMetadata) (content : String)
  | symlink (target : String)
/-- Modelled from the spec: the name-to-child mapping of a directory
(`FSDirectory.Entries`), as an association list. -/
inductive FSEntries where
  | nil
  | cons (name : String) (node : FSNode) (rest : FSEntries)
end

/-- Models `common.PackageRelation`: a related package name plus an optional
version constraint (operator and version). -/
structure PackageRelation where
  RelatedPackage : String
  Constraints : Option (String × String)

/-- Models `common.Package`.  `FSRoot` holds the entries of the root
directory of the Filesystem Tree Model. -/
structure Package where
  Name : String
  Version : String
  Release : Nat
  Epoch : Nat
  Architecture : Architecture
  Description : String
  Author : String
  Requires : List PackageRelation
  Provides : List PackageRelation
  Conflicts : List PackageRelation
  Replaces : List PackageRelation
  SetupScript : String
  CleanupScript : String
  FSRoot : FSEntries

/-! ## String helpers

The Go standard-library string functions used by the sources
(`strings.HasPrefix`, `strings.Split`, `strings.Replace`, `strings.Join`,
`strings.TrimSpace`, the `\s+` regexp) are re-implemented here over
character lists so that everything reduces inside the kernel. -/

/-- Concatenation of a list of strings; models `strings.Join(lines, "")`
and the `+=` accumulation used to build `.PKGINFO` contents. -/
def strConcat : List String → String
  | [] => ""
  | s :: rest => s ++ strConcat rest

/-- Does `pat` occur at the start of the character list?  Helper for
`strStartsWith`. -/
def hasPreChars : List Char → List Char → Bool
  | [], _ => true
  | _ :: _, [] => false
  | a :: as, b :: bs => a = b && hasPreChars as bs

/-- Models `strings.HasPrefix(s, pat)`. -/
def strStartsWith (s pat : String) : Bool := hasPreChars pat.data s.data

/-- Split a character list at every occurrence of the separator character.
Helper for `splitOnChar`. -/
def splitChars (c : Char) : List Char → List (List Char)
  | [] => [[]]
  | x :: rest =>
    if x = c then [] :: splitChars c rest
    else
      match splitChars c rest with
      | h :: t => (x :: h) :: t
      | [] => [[x]]

/-- Models `strings.Split(s, sep)` for a single-character separator, the
only form the sources use (`strings.Split(path, "/")`). -/
def splitOnChar (c : Char) (s : String) : List String :=
  (splitChars c s.data).map String.mk

/-- Models `strings.Replace(s, "-", "_", -1)`: for the single-character
pattern used by the pacman generator this is a character-wise map. -/
def replaceDashes (s : String) : String :=
  String.mk (s.data.map fun c => if c = '-' then '_' else c)

/-- Models `strings.TrimSpace`: drop leading and trailing whitespace. -/
def trimWSChars (l : List Char) : List Char :=
  ((l.dropWhile Char.isWhitespace).reverse.dropWhile Char.isWhitespace).reverse

/-- Collapse every run of whitespace characters to a single space;
`prevWasWS` records whether the previous character was part of a run.
Helper for `normalizeDescription`. -/
def collapseWSChars (prevWasWS : Bool) : List Char → List Char
  | [] => []
  | c :: rest =>
    if c.isWhitespace then
      if prevWasWS then collapseWSChars true rest
      else ' ' :: collapseWSChars true rest
    else c :: collapseWSChars false rest

/-- Models the description normalization of `writePKGINFO`:
``regexp.MustCompile(`\s+`).ReplaceAllString(strings.TrimSpace(d), " ")``. -/
def normalizeDescription (s : String) : String :=
  String.mk (collapseWSChars false (trimWSChars s.data))

/-! ## The filesystem-tree walk -/

mutual
/-- Modelled from the spec: visiting one node of the Filesystem Tree Model
with its slash-joined path, parent before children (the walk underlying
`WalkFSWithAbsolutePaths` / `WalkFSWithRelativePaths`, whose implementation
is not among the provided sources). -/
def walkNode (path : String) : FSNode → List (String × FSNode)
  | .dir m es => (path, .dir m es) :: walkEntries (path ++ "/") es
  | n => [(path, n)]
/-- Modelled from the spec: walking all entries of a directory; `base` is
the directory's path including the trailing slash (so the root entries use
base `"/"` for absolute paths and `""` for relative paths). -/
def walkEntries (base : String) : FSEntries → List (String × FSNode)
  | .nil => []
  | .cons name node rest => walkNode (base ++ name) node ++ walkEntries base rest
end

/-- All (absolute path, node) pairs of a package's filesystem tree, in walk
order; models `pkg.WalkFSWithAbsolutePaths`. -/
def walkAbsolute (pkg : Package) : List (String × FSNode) :=
  walkEntries "/" pkg.FSRoot

/-- All (relative path, node) pairs of a package's filesystem tree, in walk
order; models `pkg.WalkFSWithRelativePaths`. -/
def walkRelative (pkg : Package) : List (String × FSNode) :=
  walkEntries "" pkg.FSRoot

/-! ## Orchestrator pre-processing: doMagicalHoloIntegration -/

/-- Models the plugin-ID extraction inside `doMagicalHoloIntegration`: a
path contributes a plugin ID when it starts with `/usr/share/holo/` and
splitting it at `/` yields more than 4 parts; the ID is part number 4. -/
def pluginIDOfPath (path : String) : Option String :=
  if strStartsWith path "/usr/share/holo/" then
    let pathParts := splitOnChar '/' path
    if 4 < pathParts.length then pathParts[4]? else none
  else none

/-- The set of distinct plugin IDs collected by `doMagicalHoloIntegration`,
as a duplicate-free list.  In Go the set is a `map[string]bool`; iteration
order over that map is unspecified, so it is passed separately (see
`doMagicalHoloIntegration`). -/
def pluginsOf (pkg : Package) : List String :=
  ((walkAbsolute pkg).filterMap fun pn => pluginIDOfPath pn.1).dedup

/-- Models the `hasDep` loop of `doMagicalHoloIntegration`: is some
relation in the list named `depName`? -/
def hasRelationNamed (depName : String) : List PackageRelation → Bool
  | [] => false
  | rel :: rest => if rel.RelatedPackage = depName then true else hasRelationNamed depName rest

/-- Models one iteration of the plugin loop in `doMagicalHoloIntegration`:
append `holo-<pluginID>` to the requirements unless a relation of that name
already exists. -/
def holoDepStep (reqs : List PackageRelation) (pluginID : String) : List PackageRelation :=
  let depName := "holo-" ++ pluginID
  if hasRelationNamed depName reqs then reqs else reqs ++ [⟨depName, none⟩]

/-- Models `Package.doMagicalHoloIntegration`.  `pluginOrder` stands for
the iteration order of the Go `for pluginID := range plugins` loop over the
plugin set: Go map iteration order is unspecified and may differ between
runs, so it is an explicit parameter; callers are expected to pass some
permutation of `pluginsOf pkg`. -/
def doMagicalHoloIntegration (pkg : Package) (pluginOrder : List String) : Package :=
  if (pluginsOf pkg).isEmpty then pkg
  else
    { pkg with
      Requires := pluginOrder.foldl holoDepStep pkg.Requires
      SetupScript := "holo apply\n" ++ pkg.SetupScript
      CleanupScript := "holo apply\n" ++ pkg.CleanupScript }

/-- Number of relations in the list whose related package is `depName`. -/
def relCount (depName : String) : List PackageRelation → Nat
  | [] => 0
  | rel :: rest => (if rel.RelatedPackage = depName then 1 else 0) + relCount depName rest

/-! ## Orchestrator pre-processing: postponeUnmaterializableFSMetadata -/

/-- Is this an owner/group given by symbolic name? -/
def OwnerSpec.isSymbolicB : OwnerSpec → Bool
  | .symbolic _ => true
  | .numeric _ => false

/-- The name used for an owner/group inside a generated `chown` call. -/
def OwnerSpec.displayName : OwnerSpec → String
  | .symbolic s => s
  | .numeric n => toString n

/-- Modelled from the spec: symbolic ownership is "stripped to default"
when it is postponed; numeric ownership is untouched. -/
def OwnerSpec.stripSymbolic : OwnerSpec → OwnerSpec
  | .symbolic _ => .numeric 0
  | o => o

/-- Does this metadata name a symbolic owner or group? -/
def FSNodeMetadata.hasSymbolicOwnership (m : FSNodeMetadata) : Bool :=
  m.Owner.isSymbolicB || m.Group.isSymbolicB

/-- Modelled from the spec: the ownership-fixup directive synthesized for a
node whose ownership is postponed — "a chown directive (symbolic
owner:group, path)". -/
def chownDirective (path : String) (m : FSNodeMetadata) : String :=
  "chown " ++ m.Owner.displayName ++ ":" ++ m.Group.displayName ++ " " ++ path ++ "\n"

/-- Modelled from the spec: `FSNodeMetadata.PostponeUnmaterializable`
(called by `postponeUnmaterializableFSMetadata`, but not among the provided
sources) — "remove that symbolic identity from the metadata and synthesize
a chown directive"; returns the updated metadata and the script fragment. -/
def FSNodeMetadata.postponeUnmaterializable (m : FSNodeMetadata) (path : String) :
    FSNodeMetadata × String :=
  if m.hasSymbolicOwnership then
    ({ m with Owner := m.Owner.stripSymbolic, Group := m.Group.stripSymbolic },
     chownDirective path m)
  else (m, "")

mutual
/-- The tree transformation performed by
`Package.postponeUnmaterializableFSMetadata` on one node: directories and
regular files have their metadata postponed, other nodes are untouched;
script fragments accumulate in walk order. -/
def postponeNode (path : String) : FSNode → FSNode × String
  | .dir m es =>
    let pm := m.postponeUnmaterializable path
    let pes := postponeEntries (path ++ "/") es
    (.dir pm.1 pes.1, pm.2 ++ pes.2)
  | .file m content =>
    let pm := m.postponeUnmaterializable path
    (.file pm.1 content, pm.2)
  | .symlink target => (.symlink target, "")
/-- `postponeNode` applied to every entry of a directory. -/
def postponeEntries (base : String) : FSEntries → FSEntries × String
  | .nil => (.nil, "")
  | .cons name node rest =>
    let pn := postponeNode (base ++ name) node
    let pr := postponeEntries base rest
    (.cons name pn.1 pr.1, pn.2 ++ pr.2)
end

/-- Models `Package.postponeUnmaterializableFSMetadata`: walk the tree,
postpone unmaterializable ownership, and prepend the accumulated script to
the setup script. -/
def postponeUnmaterializableFSMetadata (pkg : Package) : Package :=
  let pr := postponeEntries "/" pkg.FSRoot
  { pkg with FSRoot := pr.1, SetupScript := pr.2 ++ pkg.SetupScript }

mutual
/-- The (path, metadata) pairs of directory/regular-file nodes with
symbolic owner or group, in walk order, below one node. -/
def symbolicNode (path : String) : FSNode → List (String × FSNodeMetadata)
  | .dir m es =>
    (if m.hasSymbolicOwnership then [(path, m)] else []) ++ symbolicEntries (path ++ "/") es
  | .file m _ => if m.hasSymbolicOwnership then [(path, m)] else []
  | .symlink _ => []
/-- `symbolicNode` over all entries of a directory. -/
def symbolicEntries (base : String) : FSEntries → List (String × FSNodeMetadata)
  | .nil => []
  | .cons name node rest => symbolicNode (base ++ name) node ++ symbolicEntries base rest
end

/-- Does a node's own metadata name a symbolic owner or group?  Nodes
without metadata (symlinks) report `false`. -/
def nodeHasSymbolic : FSNode → Bool
  | .dir m _ => m.hasSymbolicOwnership
  | .file m _ => m.hasSymbolicOwnership
  | .symlink _ => false

/-! ## Pacman generator -/

/-- Models the pacman `fullVersionString`: the version with every dash
replaced by an underscore, a dash and the release, with a leading
`<epoch>:` only when the epoch is positive. -/
def fullVersionString (pkg : Package) : String :=
  let str := replaceDashes pkg.Version ++ "-" ++ toString pkg.Release
  if pkg.Epoch > 0 then toString pkg.Epoch ++ ":" ++ str else str

/-- Models the pacman `RecommendedFileName`:
`fmt.Sprintf("%s-%s-any.pkg.tar.xz", pkg.Name, fullVersionString(pkg))`. -/
def pacmanRecommendedFileName (pkg : Package) : String :=
  pkg.Name ++ "-" ++ fullVersionString pkg ++ "-any.pkg.tar.xz"

/-- Modelled from the spec: one line of a relation list as rendered by
`compilePackageRelations` (not among the provided sources): the keyword,
the related package and its optional version constraint. -/
def renderRelation (keyword : String) (rel : PackageRelation) : String :=
  keyword ++ " = " ++ rel.RelatedPackage ++
    (match rel.Constraints with
     | some c => c.1 ++ c.2
     | none => "") ++ "\n"

/-- Modelled from the spec: `compilePackageRelations` — "relation lists
(replaces/conflicts/provides/requires) are emitted in encounter order". -/
def compilePackageRelations (keyword : String) (rels : List PackageRelation) : String :=
  strConcat (rels.map (renderRelation keyword))

/-- Modelled from the spec: `compilePackageRequirements` renders the
requirements list like the other relation lists, in encounter order. -/
def compilePackageRequirements (rels : List PackageRelation) : String :=
  compilePackageRelations "depend" rels

/-- The backup lines collected by `compileBackupMarkers` before sorting:
one `backup = <path>` line per regular file whose relative path does not
start with `usr/share/holo/`, in walk order. -/
def backupLinesUnsorted (pkg : Package) : List String :=
  (walkRelative pkg).filterMap fun pn =>
    match pn.2 with
    | .file _ _ =>
      if strStartsWith pn.1 "usr/share/holo/" then none
      else some ("backup = " ++ pn.1 ++ "\n")
    | _ => none

/-- The backup lines after `sort.Strings(lines)`. -/
def sortedBackupLines (pkg : Package) : List String :=
  List.insertionSort (· ≤ ·) (backupLinesUnsorted pkg)

/-- Models the pacman `compileBackupMarkers` (in-memory variant): collect
the backup lines over the relative-path walk, sort them, join them. -/
def compileBackupMarkers (pkg : Package) : String :=
  strConcat (sortedBackupLines pkg)

mutual
/-- Modelled from the spec: `FSRoot.InstalledSizeInBytes` (not among the
provided sources) — the "summed installed size" of the tree, here the total
content size of its regular files. -/
def nodeInstalledSize : FSNode → Nat
  | .dir _ es => entriesInstalledSize es
  | .file _ content => content.length
  | .symlink _ => 0
/-- `nodeInstalledSize` summed over directory entries. -/
def entriesInstalledSize : FSEntries → Nat
  | .nil => 0
  | .cons _ node rest => nodeInstalledSize node + entriesInstalledSize rest
end

/-- Models the `.PKGINFO` contents assembled by the pacman in-memory
`writePKGINFO`, as the list of appended chunks.  The wall clock
(`time.Now().Unix()`) and the tool version banner (`common.VersionString()`)
are effectful inputs of the Go code and are passed as the `now` and
`toolVersion` parameters. -/
def pkginfoChunks (pkg : Package) (buildReproducibly : Bool) (toolVersion : String)
    (now : Nat) : List String :=
  [if buildReproducibly then "# Generated by holo-build in reproducible mode\n"
   else "# Generated by holo-build " ++ toolVersion ++ "\n",
   "pkgname = " ++ pkg.Name ++ "\n",
   "pkgver = " ++ fullVersionString pkg ++ "\n",
   "pkgdesc = " ++ normalizeDescription pkg.Description ++ "\n",
   "url = \n"] ++
  (if buildReproducibly then [] else ["builddate = " ++ toString now ++ "\n"]) ++
  [if pkg.Author = "" then "packager = Unknown Packager\n"
   else "packager = " ++ pkg.Author ++ "\n",
   "size = " ++ toString (entriesInstalledSize pkg.FSRoot) ++ "\n",
   "arch = any\n",
   "license = custom:none\n",
   compilePackageRelations "replaces" pkg.Replaces,
   compilePackageRelations "conflict" pkg.Conflicts,
   compilePackageRelations "provides" pkg.Provides,
   compileBackupMarkers pkg,
   compilePackageRequirements pkg.Requires,
   "makedepend = holo-build\n",
   "makepkgopt = !strip\n",
   "makepkgopt = docs\n",
   "makepkgopt = libtool\n",
   "makepkgopt = staticlibs\n",
   "makepkgopt = emptydirs\n",
   "makepkgopt = !zipman\n",
   "makepkgopt = !purge\n",
   "makepkgopt = !upx\n",
   "makepkgopt = !debug\n"]

/-- The full `.PKGINFO` text: the chunks of `pkginfoChunks` concatenated in
order, exactly as the Go code accumulates them with `+=`. -/
def pkginfoContents (pkg : Package) (buildReproducibly : Bool) (toolVersion : String)
    (now : Nat) : String :=
  strConcat (pkginfoChunks pkg buildReproducibly toolVersion now)

/-! ## RPM generator -/

/-- Models the RPM `Validate`: the source performs no format-specific
checks and returns `nil`. -/
def rpmValidate (_pkg : Package) : List String := []

/-- The padding loop of `appendAlignedTo8Byte`: append zero bytes until the
length is a multiple of 8. -/
def alignTo8Loop (result : List Nat) : List Nat :=
  if result.length % 8 = 0 then result else alignTo8Loop (result ++ [0])
termination_by (8 - result.length % 8) % 8
decreasing_by
  simp only [List.length_append, List.length_cons, List.length_nil]
  omega

/-- Models the RPM generator's `appendAlignedTo8Byte(a, b)`: pad `a` with
zero bytes to an 8-byte boundary, then append `b`. -/
def appendAlignedTo8Byte (a b : List Nat) : List Nat :=
  alignTo8Loop a ++ b

/-- Models the combination step of the RPM generator's `Build` (its last
four statements): given the four regions — whose builders `MakePayload`,
`MakeHeaderSection`, `MakeSignatureSection` and `NewLead().ToBinary()` are
not among the provided sources and are therefore abstracted as the region
byte strings themselves — align lead with signature, align that with the
header section, and append the payload. -/
def rpmGenBuild (lead signatureSection headerSection payloadBinary : List Nat) : List Nat :=
  let combined1 := appendAlignedTo8Byte lead signatureSection
  let combined2 := appendAlignedTo8Byte combined1 headerSection
  combined2 ++ payloadBinary

/-- The layout the claim describes, for comparison with `rpmGenBuild`:
"every region boundary padded with zero bytes up to the next 8-byte
boundary before the next region begins" — i.e. padding also between the
header section and the payload. -/
def rpmBuildEveryBoundaryPadded (lead signatureSection headerSection payloadBinary : List Nat) :
    List Nat :=
  appendAlignedTo8Byte
    (appendAlignedTo8Byte (appendAlignedTo8Byte lead signatureSection) headerSection)
    payloadBinary

/-! ## Build orchestrator strategy

`Package.Build` in `common/build.go` first runs the two pre-processing
passes (`doMagicalHoloIntegration`, `postponeUnmaterializableFSMetadata`,
modelled above) and then drives the generator.  The generator and every
filesystem operation are effectful, so their outcomes are parameters here;
the function returns the final result together with the ordered list of
steps it attempted. -/

/-- The outcome of `generator.BuildInMemory`: package bytes, the
distinguished `UnsupportedBuildMethodError` sentinel, or any other error. -/
inductive InMemOutcome where
  | ok (pkgBytes : List Nat)
  | unsupportedMethod
  | failure (message : String)
deriving DecidableEq

/-- The behavior of a generator for the package at hand: the outcome of its
in-memory build, the outcome of its filesystem-rooted build, and its
recommended file name. -/
structure GenBehavior where
  inMemory : InMemOutcome
  fsBuild : Except String (List Nat)
  recommendedFileName : String

/-- Outcomes of the orchestrator's effectful filesystem steps (`none`
means success): removing a stale root directory, materializing the tree,
removing the root after a successful build, and writing the output. -/
structure FSEnv where
  removeStaleRoot : Option String
  materializeRoot : Option String
  removeRootAfter : Option String
  writeOutput : Option String

/-- One step attempted by the orchestrator, in order of appearance in
`Package.Build`. -/
inductive Step where
  | inMemoryBuild
  | removeRootPre
  | materializeFS
  | fsRootedBuild
  | removeRootPost
  | writeOut
deriving DecidableEq

/-- Models `strings.ContainsAny(pkgFile, "/ \t\r\n")`. -/
def containsPathSepOrSpace (name : String) : Bool :=
  name.data.any fun c => c == '/' || c == ' ' || c == '\t' || c == '\r' || c == '\n'

/-- The output phase of `Package.Build`: write the bytes to stdout, or
validate the recommended file name and write the file. -/
def writePhase (gen : GenBehavior) (env : FSEnv) (printToStdout : Bool) :
    Except String Unit × List Step :=
  if printToStdout then
    match env.writeOutput with
    | some e => (.error e, [.writeOut])
    | none => (.ok (), [.writeOut])
  else
    if containsPathSepOrSpace gen.recommendedFileName then
      (.error ("Unexpected filename generated: \"" ++ gen.recommendedFileName ++ "\""), [])
    else
      match env.writeOutput with
      | some e => (.error e, [.writeOut])
      | none => (.ok (), [.writeOut])

/-- Models the strategy part of `Package.Build` (after the two
pre-processing passes): try the in-memory build; fall back to the
filesystem-rooted build exactly when it reports
`UnsupportedBuildMethodError`; in the fallback, remove a stale root,
materialize the tree, run the generator's filesystem-rooted build, and
remove the root again on success; finally write the output. -/
def buildStrategy (gen : GenBehavior) (env : FSEnv) (printToStdout : Bool) :
    Except String Unit × List Step :=
  match gen.inMemory with
  | .failure e => (.error e, [.inMemoryBuild])
  | .ok _ =>
    let w := writePhase gen env printToStdout
    (w.1, .inMemoryBuild :: w.2)
  | .unsupportedMethod =>
    match env.removeStaleRoot with
    | some e => (.error e, [.inMemoryBuild, .removeRootPre])
    | none =>
      match env.materializeRoot with
      | some e => (.error e, [.inMemoryBuild, .removeRootPre, .materializeFS])
      | none =>
        match gen.fsBuild with
        | .error e => (.error e, [.inMemoryBuild, .removeRootPre, .materializeFS, .fsRootedBuild])
        | .ok _ =>
          match env.removeRootAfter with
          | some e =>
            (.error e,
             [.inMemoryBuild, .removeRootPre, .materializeFS, .fsRootedBuild, .removeRootPost])
          | none =>
            let w := writePhase gen env printToStdout
            (w.1,
             [.inMemoryBuild, .removeRootPre, .materializeFS, .fsRootedBuild, .removeRootPost]
               ++ w.2)

/-! ## Concrete inputs for evaluation -/

/-- A tree holding one regular file below one plugin directory of the
provisioning namespace: `/usr/share/holo/foo/x.toml`. -/
def holoOnePluginTree : FSEntries :=
  .cons "usr" (.dir (FSNodeMetadata.withMode 0o755)
    (.cons "share" (.dir (FSNodeMetadata.withMode 0o755)
      (.cons "holo" (.dir (FSNodeMetadata.withMode 0o755)
        (.cons "foo" (.dir (FSNodeMetadata.withMode 0o755)
          (.cons "x.toml" (.file (FSNodeMetadata.withMode 0o644) "config") .nil)) .nil))
        .nil)) .nil)) .nil

/-- A package whose tree is `holoOnePluginTree`, with a configurable
requirements list. -/
def holoOnePluginPkg (reqs : List PackageRelation) : Package :=
  ⟨"mypkg", "1.0", 1, 0, .any, "", "", reqs, [], [], [], "setup\n", "cleanup\n",
   holoOnePluginTree⟩

/-- A tree holding regular files below two distinct plugin directories of
the provisioning namespace: `/usr/share/holo/aaa/x` and
`/usr/share/holo/bbb/y`. -/
def holoTwoPluginTree : FSEntries :=
  .cons "usr" (.dir (FSNodeMetadata.withMode 0o755)
    (.cons "share" (.dir (FSNodeMetadata.withMode 0o755)
      (.cons "holo" (.dir (FSNodeMetadata.withMode 0o755)
        (.cons "aaa" (.dir (FSNodeMetadata.withMode 0o755)
          (.cons "x" (.file (FSNodeMetadata.withMode 0o644) "xx") .nil))
         (.cons "bbb" (.dir (FSNodeMetadata.withMode 0o755)
          (.cons "y" (.file (FSNodeMetadata.withMode 0o644) "yy") .nil)) .nil)))
        .nil)) .nil)) .nil

/-- A package with two detected plugins and no pre-existing requirements. -/
def twoPluginPkg : Package :=
  ⟨"mypkg", "1.0", 1, 0, .any, "Example package", "", [], [], [], [], "", "",
   holoTwoPluginTree⟩

/-- A package with symbolic ownership on a directory (`/etc`, owner
`admin`) and on a regular file inside it (`/etc/app.conf`, group
`wheel`). -/
def symbolicOwnerPkg : Package :=
  ⟨"mypkg", "1.0", 1, 0, .any, "", "", [], [], [], [], "echo hi\n", "",
   .cons "etc" (.dir ⟨0o755, .symbolic "admin", .numeric 0⟩
     (.cons "app.conf" (.file ⟨0o644, .numeric 0, .symbolic "wheel"⟩ "cfg") .nil)) .nil⟩

/-! ## Helper lemmas -/

theorem strConcat_append (xs ys : List String) :
    strConcat (xs ++ ys) = strConcat xs ++ strConcat ys := by
  induction xs with
  | nil => simp [strConcat]
  | cons s rest ih => simp [strConcat, ih, String.append_assoc]

theorem holoName_inj {a b : String} (h : "holo-" ++ a = "holo-" ++ b) : a = b := by
  cases a; cases b
  simp only [String.ext_iff] at h ⊢
  simpa [String.data_append] using h

theorem hasRelationNamed_iff (depName : String) (rels : List PackageRelation) :
    hasRelationNamed depName rels = true ↔ relCount depName rels ≠ 0 := by
  induction rels with
  | nil => simp [hasRelationNamed, relCount]
  | cons rel rest ih =>
    by_cases h : rel.RelatedPackage = depName <;>
      simp [hasRelationNamed, relCount, h, ih]

theorem relCount_append (depName : String) (xs ys : List PackageRelation) :
    relCount depName (xs ++ ys) = relCount depName xs + relCount depName ys := by
  induction xs with
  | nil => simp [relCount]
  | cons rel rest ih => simp [relCount, ih]; omega

theorem relCount_holoDepStep (P pid : String) (reqs : List PackageRelation) :
    relCount ("holo-" ++ P) (holoDepStep reqs pid) =
      if pid = P then
        (if relCount ("holo-" ++ P) reqs = 0 then 1 else relCount ("holo-" ++ P) reqs)
      else relCount ("holo-" ++ P) reqs := by
  unfold holoDepStep
  cases hh : hasRelationNamed ("holo-" ++ pid) reqs with
  | true =>
    have hcnt := (hasRelationNamed_iff ("holo-" ++ pid) reqs).mp hh
    simp only [hh, if_true]
    by_cases hpid : pid = P
    · subst hpid
      simp [if_neg hcnt]
    · simp [hpid]
  | false =>
    have hcnt : relCount ("holo-" ++ pid) reqs = 0 := by
      by_contra hc
      have := (hasRelationNamed_iff ("holo-" ++ pid) reqs).mpr hc
      rw [hh] at this
      exact Bool.false_ne_true this
    simp only [hh, Bool.false_eq_true, if_false]
    rw [relCount_append]
    by_cases hpid : pid = P
    · subst hpid
      simp [relCount, hcnt]
    · have hne : ¬("holo-" ++ pid : String) = "holo-" ++ P := fun h => hpid (holoName_inj h)
      simp [relCount, hpid, hne]

theorem relCount_foldl (P : String) (pluginOrder : List String) (reqs : List PackageRelation) :
    relCount ("holo-" ++ P) (pluginOrder.foldl holoDepStep reqs) =
      if P ∈ pluginOrder then
        (if relCount ("holo-" ++ P) reqs = 0 then 1 else relCount ("holo-" ++ P) reqs)
      else relCount ("holo-" ++ P) reqs := by
  induction pluginOrder generalizing reqs with
  | nil => simp
  | cons pid rest ih =>
    rw [List.foldl_cons, ih]
    simp only [relCount_holoDepStep, List.mem_cons]
    by_cases h1 : pid = P
    · subst h1
      by_cases h2 : pid ∈ rest <;> simp [h2] <;> (try split_ifs) <;> omega
    · have h1' : ¬P = pid := fun hc => h1 hc.symm
      by_cases h2 : P ∈ rest <;> simp [h1, h1', h2]

theorem alignTo8Loop_eq (a : List Nat) :
    alignTo8Loop a = a ++ List.replicate ((8 - a.length % 8) % 8) 0 := by
  by_cases h : a.length % 8 = 0
  · rw [alignTo8Loop, if_pos h, h]
    simp
  · rw [alignTo8Loop, if_neg h, alignTo8Loop_eq (a ++ [0])]
    rw [List.append_assoc]
    congr 1
    have hc : (8 - a.length % 8) % 8 = (8 - (a ++ [0]).length % 8) % 8 + 1 := by
      simp only [List.length_append, List.length_cons, List.length_nil]
      omega
    rw [hc, List.replicate_succ]
    simp
termination_by (8 - a.length % 8) % 8
decreasing_by
  simp only [List.length_append, List.length_cons, List.length_nil]
  omega

theorem alignTo8Loop_spec (a : List Nat) :
    ∃ k, k < 8 ∧ (a.length + k) % 8 = 0 ∧ alignTo8Loop a = a ++ List.replicate k 0 := by
  refine ⟨(8 - a.length % 8) % 8, ?_, ?_, alignTo8Loop_eq a⟩ <;> omega

theorem postpone_meta_clean (m : FSNodeMetadata) (path : String) :
    (m.postponeUnmaterializable path).1.hasSymbolicOwnership = false := by
  unfold FSNodeMetadata.postponeUnmaterializable
  by_cases h : m.hasSymbolicOwnership = true
  · rw [if_pos h]
    unfold FSNodeMetadata.hasSymbolicOwnership OwnerSpec.stripSymbolic OwnerSpec.isSymbolicB
    cases m.Owner <;> cases m.Group <;> simp
  · rw [if_neg h]
    simpa using h

theorem postpone_meta_script (m : FSNodeMetadata) (path : String) :
    (m.postponeUnmaterializable path).2 =
      strConcat ((if m.hasSymbolicOwnership then [(path, m)] else []).map
        fun pm => chownDirective pm.1 pm.2) := by
  unfold FSNodeMetadata.postponeUnmaterializable
  by_cases h : m.hasSymbolicOwnership = true <;> simp [h, strConcat]

mutual
theorem postponeNode_script (path : String) (n : FSNode) :
    (postponeNode path n).2 =
      strConcat ((symbolicNode path n).map fun pm => chownDirective pm.1 pm.2) := by
  cases n with
  | dir m es =>
    show (m.postponeUnmaterializable path).2 ++ (postponeEntries (path ++ "/") es).2 = _
    rw [postpone_meta_script, postponeEntries_script]
    unfold symbolicNode
    rw [List.map_append, strConcat_append]
  | file m content =>
    show (m.postponeUnmaterializable path).2 = _
    rw [postpone_meta_script]
    rfl
  | symlink target => rfl
theorem postponeEntries_script (base : String) (es : FSEntries) :
    (postponeEntries base es).2 =
      strConcat ((symbolicEntries base es).map fun pm => chownDirective pm.1 pm.2) := by
  cases es with
  | nil => rfl
  | cons name node rest =>
    show (postponeNode (base ++ name) node).2 ++ (postponeEntries base rest).2 = _
    rw [postponeNode_script, postponeEntries_script]
    simp only [symbolicEntries, List.map_append, strConcat_append]
end

mutual
theorem postponeNode_clean (path path' : String) (n : FSNode) :
    symbolicNode path' (postponeNode path n).1 = [] := by
  cases n with
  | dir m es =>
    show (if (m.postponeUnmaterializable path).1.hasSymbolicOwnership then _ else []) ++
      symbolicEntries (path' ++ "/") (postponeEntries (path ++ "/") es).1 = []
    rw [postpone_meta_clean, postponeEntries_clean]
    simp
  | file m content =>
    show (if (m.postponeUnmaterializable path).1.hasSymbolicOwnership then _ else []) = []
    rw [postpone_meta_clean]
    simp
  | symlink target => rfl
theorem postponeEntries_clean (base base' : String) (es : FSEntries) :
    symbolicEntries base' (postponeEntries base es).1 = [] := by
  cases es with
  | nil => rfl
  | cons name node rest =>
    show symbolicNode (base' ++ name) (postponeNode (base ++ name) node).1 ++
      symbolicEntries base' (postponeEntries base rest).1 = []
    rw [postponeNode_clean, postponeEntries_clean]
    rfl
end

mutual
theorem symbolicNode_nil_walk (path : String) (n : FSNode) (h : symbolicNode path n = []) :
    ∀ pn ∈ walkNode path n, nodeHasSymbolic pn.2 = false := by
  cases n with
  | dir m es =>
    rw [symbolicNode] at h
    rcases List.append_eq_nil.mp h with ⟨h1, h2⟩
    have hm : m.hasSymbolicOwnership = false := by
      by_contra hc
      simp only [Bool.not_eq_false] at hc
      rw [if_pos hc] at h1
      cases h1
    intro pn hpn
    rw [walkNode] at hpn
    rcases List.mem_cons.mp hpn with hfirst | hrest
    · subst hfirst
      simpa [nodeHasSymbolic] using hm
    · exact symbolicEntries_nil_walk (path ++ "/") es h2 pn hrest
  | file m content =>
    rw [symbolicNode] at h
    have hm : m.hasSymbolicOwnership = false := by
      by_contra hc
      simp only [Bool.not_eq_false] at hc
      rw [if_pos hc] at h
      cases h
    intro pn hpn
    replace hpn : pn ∈ [(path, FSNode.file m content)] := hpn
    rcases List.mem_cons.mp hpn with hfirst | hrest
    · subst hfirst
      simpa [nodeHasSymbolic] using hm
    · cases hrest
  | symlink target =>
    intro pn hpn
    replace hpn : pn ∈ [(path, FSNode.symlink target)] := hpn
    rcases List.mem_cons.mp hpn with hfirst | hrest
    · subst hfirst
      rfl
    · cases hrest
theorem symbolicEntries_nil_walk (base : String) (es : FSEntries)
    (h : symbolicEntries base es = []) :
    ∀ pn ∈ walkEntries base es, nodeHasSymbolic pn.2 = false := by
  cases es with
  | nil =>
    intro pn hpn
    cases hpn
  | cons name node rest =>
    rw [symbolicEntries] at h
    rcases List.append_eq_nil.mp h with ⟨h1, h2⟩
    intro pn hpn
    rw [walkEntries] at hpn
    rcases List.mem_append.mp hpn with hleft | hright
    · exact symbolicNode_nil_walk (base ++ name) node h1 pn hleft
    · exact symbolicEntries_nil_walk base rest h2 pn hright
end

/-! ## Claim theorems -/

/-- C9: the RPM generator's `Validate` returns an empty list of errors for
every Package Model whatsoever — it performs no format-specific structural
checks, so no package is ever rejected by RPM validation. -/
theorem c9_rpm_validate_always_empty (pkg : Package) : rpmValidate pkg = [] := rfl

/-- C5: the pacman `pkgver` field renders as the version with every dash
replaced by an underscore, a dash and the release, prefixed `epoch:` iff
the epoch is positive; version "1.2-3", release 4, epoch 0 renders as
"1.2_3-4" and with epoch 2 as "2:1.2_3-4". -/
theorem c5_pacman_pkgver_rendering (pkg : Package) :
    (pkg.Epoch = 0 →
      fullVersionString pkg = replaceDashes pkg.Version ++ "-" ++ toString pkg.Release) ∧
    (0 < pkg.Epoch →
      fullVersionString pkg =
        toString pkg.Epoch ++ ":" ++ (replaceDashes pkg.Version ++ "-" ++ toString pkg.Release)) ∧
    (pkg.Version = "1.2-3" → pkg.Release = 4 → pkg.Epoch = 0 →
      fullVersionString pkg = "1.2_3-4") ∧
    (pkg.Version = "1.2-3" → pkg.Release = 4 → pkg.Epoch = 2 →
      fullVersionString pkg = "2:1.2_3-4") := by
  refine ⟨fun h0 => ?_, fun hpos => ?_, fun hv hr h0 => ?_, fun hv hr h2 => ?_⟩
  · simp [fullVersionString, h0]
  · simp [fullVersionString, hpos]
  · simp only [fullVersionString, hv, hr, h0]
    decide
  · simp only [fullVersionString, hv, hr, h2]
    decide

/-- C5 witness: the two concrete renderings, obtained from
`c5_pacman_pkgver_rendering` at explicit packages. -/
theorem c5_witness :
    fullVersionString ⟨"x", "1.2-3", 4, 0, .any, "", "", [], [], [], [], "", "", .nil⟩ =
        "1.2_3-4" ∧
    fullVersionString ⟨"x", "1.2-3", 4, 2, .any, "", "", [], [], [], [], "", "", .nil⟩ =
        "2:1.2_3-4" :=
  ⟨(c5_pacman_pkgver_rendering _).2.2.1 rfl rfl rfl,
   (c5_pacman_pkgver_rendering _).2.2.2 rfl rfl rfl⟩

/-- C2 counterexample: the claim says every region boundary of the RPM
container is padded to the next 8-byte boundary, including the boundary
between the header section and the payload; but `Build` appends the payload
directly after the header section.  With an empty lead and signature, a
1-byte header section and a 1-byte payload, the two layouts differ. -/
theorem c2_counterexample :
    rpmGenBuild [] [] [1] [2] ≠ rpmBuildEveryBoundaryPadded [] [] [1] [2] := by
  simp only [rpmGenBuild, rpmBuildEveryBoundaryPadded, appendAlignedTo8Byte, alignTo8Loop_eq]
  decide

/-- C2 (amended): `Build` produces the concatenation lead, signature
section, header section, payload in on-disk order, with the lead–signature
and signature–header boundaries padded with zero bytes up to the next
8-byte boundary, and the payload appended immediately after the header
section with no padding. -/
theorem c2_rpm_build_layout (lead sig hdr payload : List Nat) :
    ∃ pad1 pad2 : List Nat,
      rpmGenBuild lead sig hdr payload = lead ++ pad1 ++ sig ++ pad2 ++ hdr ++ payload ∧
      pad1 = List.replicate pad1.length 0 ∧
      pad2 = List.replicate pad2.length 0 ∧
      pad1.length < 8 ∧ pad2.length < 8 ∧
      (lead.length + pad1.length) % 8 = 0 ∧
      (lead.length + pad1.length + sig.length + pad2.length) % 8 = 0 := by
  obtain ⟨k1, hk1, hm1, he1⟩ := alignTo8Loop_spec lead
  obtain ⟨k2, hk2, hm2, he2⟩ := alignTo8Loop_spec (alignTo8Loop lead ++ sig)
  have hlen2 : (alignTo8Loop lead ++ sig).length = lead.length + k1 + sig.length := by
    rw [he1]
    simp only [List.length_append, List.length_replicate]
  refine ⟨List.replicate k1 0, List.replicate k2 0, ?_, by simp, by simp, ?_, ?_, ?_, ?_⟩
  · show alignTo8Loop (alignTo8Loop lead ++ sig) ++ hdr ++ payload = _
    rw [he2, he1]
  · simpa using hk1
  · simpa using hk2
  · simpa using hm1
  · rw [hlen2] at hm2
    simp only [List.length_replicate]
    omega

/-- C3 (amended): for every Package Model with at least one filesystem node
under `/usr/share/holo/` with plugin id P, after `doMagicalHoloIntegration`
(under any iteration order of the detected plugin set) the Requires list
contains exactly one relation named `holo-P` — provided the input model did
not already contain more than one relation of that name (none is added if
one already exists) — and both SetupScript and CleanupScript begin with the
activation command `holo apply`, prepended exactly once per build. -/
theorem c3_holo_integration (pkg : Package) (pluginOrder : List String) (P : String)
    (horder : pluginOrder.Perm (pluginsOf pkg))
    (hP : P ∈ pluginsOf pkg)
    (hdup : relCount ("holo-" ++ P) pkg.Requires ≤ 1) :
    relCount ("holo-" ++ P) (doMagicalHoloIntegration pkg pluginOrder).Requires = 1 ∧
    (doMagicalHoloIntegration pkg pluginOrder).SetupScript =
      "holo apply\n" ++ pkg.SetupScript ∧
    (doMagicalHoloIntegration pkg pluginOrder).CleanupScript =
      "holo apply\n" ++ pkg.CleanupScript := by
  have hne : ¬((pluginsOf pkg).isEmpty = true) := by
    cases hpl : pluginsOf pkg with
    | nil => rw [hpl] at hP; cases hP
    | cons a rest => simp
  rw [doMagicalHoloIntegration, if_neg hne]
  refine ⟨?_, rfl, rfl⟩
  show relCount ("holo-" ++ P) (pluginOrder.foldl holoDepStep pkg.Requires) = 1
  rw [relCount_foldl, if_pos (horder.mem_iff.mpr hP)]
  split_ifs <;> omega

/-- C3 witness: the concrete one-plugin package with no pre-existing
requirements, via `c3_holo_integration`. -/
theorem c3_witness :
    relCount ("holo-" ++ "foo")
        (doMagicalHoloIntegration (holoOnePluginPkg []) ["foo"]).Requires = 1 ∧
    (doMagicalHoloIntegration (holoOnePluginPkg []) ["foo"]).SetupScript =
      "holo apply\n" ++ (holoOnePluginPkg []).SetupScript ∧
    (doMagicalHoloIntegration (holoOnePluginPkg []) ["foo"]).CleanupScript =
      "holo apply\n" ++ (holoOnePluginPkg []).CleanupScript :=
  c3_holo_integration (holoOnePluginPkg []) ["foo"] "foo" (by decide) (by decide) (by decide)

/-- C3 counterexample: the claim as stated ("the Requires list contains
exactly one relation named holo-P") fails when the input model already
holds two relations named `holo-foo`: the pre-processing adds none, and the
output still holds two, not exactly one. -/
theorem c3_counterexample :
    "foo" ∈ pluginsOf (holoOnePluginPkg [⟨"holo-foo", none⟩, ⟨"holo-foo", none⟩]) ∧
    ["foo"].Perm (pluginsOf (holoOnePluginPkg [⟨"holo-foo", none⟩, ⟨"holo-foo", none⟩])) ∧
    relCount "holo-foo"
        (doMagicalHoloIntegration (holoOnePluginPkg [⟨"holo-foo", none⟩, ⟨"holo-foo", none⟩])
          ["foo"]).Requires = 2 := by
  decide

/-- C4: after `postponeUnmaterializableFSMetadata`, no directory or
regular-file node of the tree names a symbolic owner or group any more,
and SetupScript begins — before any pre-existing content — with one
ownership-fixup (`chown`) directive per node that had symbolic ownership,
in walk order. -/
theorem c4_postpone_ownership (pkg : Package) :
    (∀ pn ∈ walkAbsolute (postponeUnmaterializableFSMetadata pkg),
      nodeHasSymbolic pn.2 = false) ∧
    (postponeUnmaterializableFSMetadata pkg).SetupScript =
      strConcat ((symbolicEntries "/" pkg.FSRoot).map fun pm => chownDirective pm.1 pm.2)
        ++ pkg.SetupScript := by
  constructor
  · intro pn hpn
    have hclean : symbolicEntries "/" (postponeUnmaterializableFSMetadata pkg).FSRoot = [] := by
      show symbolicEntries "/" (postponeEntries "/" pkg.FSRoot).1 = []
      exact postponeEntries_clean "/" "/" pkg.FSRoot
    exact symbolicEntries_nil_walk "/" _ hclean pn hpn
  · show (postponeEntries "/" pkg.FSRoot).2 ++ pkg.SetupScript = _
    rw [postponeEntries_script]

/-- C4 witness: concrete evaluation via `c4_postpone_ownership` on the
package with symbolic ownership on `/etc` and `/etc/app.conf`. -/
theorem c4_witness :
    (postponeUnmaterializableFSMetadata symbolicOwnerPkg).SetupScript =
      "chown admin:0 /etc\nchown 0:wheel /etc/app.conf\necho hi\n" := by
  rw [(c4_postpone_ownership symbolicOwnerPkg).2]
  decide

/-- C6: the pacman backup markers list exactly the regular files (not
directories or symlinks) whose relative paths do not fall under
`usr/share/holo/`, and the list is sorted lexicographically; the rendered
block is the concatenation of the sorted lines. -/
theorem c6_backup_markers (pkg : Package) :
    List.Sorted (· ≤ ·) (sortedBackupLines pkg) ∧
    compileBackupMarkers pkg = strConcat (sortedBackupLines pkg) ∧
    ∀ s, s ∈ sortedBackupLines pkg ↔
      ∃ pn ∈ walkRelative pkg, (∃ m c, pn.2 = FSNode.file m c) ∧
        strStartsWith pn.1 "usr/share/holo/" = false ∧
        s = "backup = " ++ pn.1 ++ "\n" := by
  refine ⟨List.sorted_insertionSort _ _, rfl, fun s => ?_⟩
  rw [show sortedBackupLines pkg = List.insertionSort (· ≤ ·) (backupLinesUnsorted pkg) from rfl,
    (List.perm_insertionSort (· ≤ ·) (backupLinesUnsorted pkg)).mem_iff]
  unfold backupLinesUnsorted
  rw [List.mem_filterMap]
  constructor
  · rintro ⟨⟨p, n⟩, hmem, hf⟩
    cases n with
    | dir m es => simp at hf
    | symlink t => simp at hf
    | file m c =>
      cases hpre : strStartsWith p "usr/share/holo/" with
      | true => simp [hpre] at hf
      | false =>
        simp only [hpre, Bool.false_eq_true, if_false, Option.some.injEq] at hf
        exact ⟨⟨p, .file m c⟩, hmem, ⟨m, c, rfl⟩, hpre, hf.symm⟩
  · rintro ⟨⟨p, n⟩, hmem, ⟨m, c, hn⟩, hpre, hs⟩
    subst hn
    refine ⟨⟨p, .file m c⟩, hmem, ?_⟩
    simp only at hpre ⊢
    rw [hpre]
    simp [hs]

/-- C6 witness: `c6_backup_markers` evaluated on the one-plugin package
(whose only regular file lies under the provisioning namespace, so the
backup list is empty and the rendered block is the empty string). -/
theorem c6_witness :
    compileBackupMarkers (holoOnePluginPkg []) = strConcat (sortedBackupLines (holoOnePluginPkg [])) ∧
    compileBackupMarkers (holoOnePluginPkg []) = "" :=
  ⟨(c6_backup_markers (holoOnePluginPkg [])).2.1, by decide⟩

/-- C10: the pacman generator ignores the architecture field: the
recommended file name and the `.PKGINFO` contents are unchanged under any
change of architecture, the file name ends in `-any.pkg.tar.xz`, and
`.PKGINFO` always contains the chunk `arch = any`. -/
theorem c10_pacman_ignores_architecture (pkg : Package) (a1 a2 : Architecture)
    (repro : Bool) (toolVersion : String) (now : Nat) :
    pacmanRecommendedFileName { pkg with Architecture := a1 } =
      pacmanRecommendedFileName { pkg with Architecture := a2 } ∧
    (∃ stem, pacmanRecommendedFileName pkg = stem ++ "-any.pkg.tar.xz") ∧
    pkginfoContents { pkg with Architecture := a1 } repro toolVersion now =
      pkginfoContents { pkg with Architecture := a2 } repro toolVersion now ∧
    "arch = any\n" ∈ pkginfoChunks pkg repro toolVersion now := by
  refine ⟨rfl, ⟨pkg.Name ++ "-" ++ fullVersionString pkg, ?_⟩, rfl, ?_⟩
  · rw [pacmanRecommendedFileName, String.append_assoc, String.append_assoc]
  · rw [pkginfoChunks]
    refine List.mem_append_right _ ?_
    simp

/-- The output phase attempts at most the write step: its trace is empty
(invalid recommended file name) or the single write step. -/
theorem writePhase_trace (gen : GenBehavior) (env : FSEnv) (printToStdout : Bool) :
    (writePhase gen env printToStdout).2 = [] ∨
    (writePhase gen env printToStdout).2 = [Step.writeOut] := by
  unfold writePhase
  by_cases hp : printToStdout = true
  · simp only [hp, if_true]
    cases env.writeOutput <;> simp
  · simp only [hp, if_false, Bool.not_eq_true] at *
    simp only [hp, Bool.false_eq_true, if_false]
    by_cases hc : containsPathSepOrSpace gen.recommendedFileName = true
    · simp [hc]
    · simp only [Bool.not_eq_true] at hc
      simp only [hc, Bool.false_eq_true, if_false]
      cases env.writeOutput <;> simp

/-- C7: the orchestrator first attempts the in-memory build; it enters the
filesystem-rooted fallback (whose first step is removing the stale root)
exactly when the in-memory build reports the distinguished
unsupported-build-method sentinel, and any other in-memory error aborts the
whole build and is returned unchanged. -/
theorem c7_in_memory_first (gen : GenBehavior) (env : FSEnv) (printToStdout : Bool)
    (e : String) :
    buildStrategy { gen with inMemory := .failure e } env printToStdout =
      (.error e, [.inMemoryBuild]) ∧
    (Step.removeRootPre ∈ (buildStrategy gen env printToStdout).2 ↔
      gen.inMemory = .unsupportedMethod) ∧
    (Step.fsRootedBuild ∈ (buildStrategy gen env printToStdout).2 →
      gen.inMemory = .unsupportedMethod) := by
  obtain ⟨im, fsb, rfn⟩ := gen
  obtain ⟨r1, r2, r3, r4⟩ := env
  refine ⟨rfl, ?_, ?_⟩
  · cases im with
    | failure msg => simp [buildStrategy]
    | ok bs =>
      rcases writePhase_trace ⟨.ok bs, fsb, rfn⟩ ⟨r1, r2, r3, r4⟩ printToStdout with h | h <;>
        simp [buildStrategy, h]
    | unsupportedMethod =>
      cases r1 <;> cases r2 <;> cases fsb <;> cases r3 <;> simp [buildStrategy]
  · cases im with
    | failure msg => simp [buildStrategy]
    | ok bs =>
      rcases writePhase_trace ⟨.ok bs, fsb, rfn⟩ ⟨r1, r2, r3, r4⟩ printToStdout with h | h <;>
        simp [buildStrategy, h]
    | unsupportedMethod => intro _; rfl

/-- C8: in the filesystem-rooted fallback, the stale root is removed first
(before materialization; a removal failure aborts); a failure during
materialization or during the generator's filesystem-rooted build returns
the underlying error unchanged and never removes the root afterwards
(leaving it behind); on a fully successful build the root is removed after
the build. -/
theorem c8_fallback_root_lifecycle (gen : GenBehavior) (env : FSEnv) (p : Bool)
    (e : String) (bs : List Nat) :
    (∃ rest, (buildStrategy { gen with inMemory := .unsupportedMethod } env p).2 =
      Step.inMemoryBuild :: Step.removeRootPre :: rest) ∧
    buildStrategy { gen with inMemory := .unsupportedMethod }
        { env with removeStaleRoot := some e } p =
      (.error e, [.inMemoryBuild, .removeRootPre]) ∧
    (buildStrategy { gen with inMemory := .unsupportedMethod }
        { env with removeStaleRoot := none, materializeRoot := some e } p =
      (.error e, [.inMemoryBuild, .removeRootPre, .materializeFS]) ∧
     Step.removeRootPost ∉
      (buildStrategy { gen with inMemory := .unsupportedMethod }
        { env with removeStaleRoot := none, materializeRoot := some e } p).2) ∧
    (buildStrategy { gen with inMemory := .unsupportedMethod, fsBuild := .error e }
        { env with removeStaleRoot := none, materializeRoot := none } p =
      (.error e, [.inMemoryBuild, .removeRootPre, .materializeFS, .fsRootedBuild]) ∧
     Step.removeRootPost ∉
      (buildStrategy { gen with inMemory := .unsupportedMethod, fsBuild := .error e }
        { env with removeStaleRoot := none, materializeRoot := none } p).2) ∧
    (∃ t, (buildStrategy { gen with inMemory := .unsupportedMethod, fsBuild := .ok bs }
        { env with removeStaleRoot := none, materializeRoot := none, removeRootAfter := none }
        p).2 =
      [Step.inMemoryBuild, Step.removeRootPre, Step.materializeFS, Step.fsRootedBuild,
       Step.removeRootPost] ++ t) := by
  obtain ⟨im, fsb, rfn⟩ := gen
  obtain ⟨r1, r2, r3, r4⟩ := env
  refine ⟨?_, rfl,
    ⟨rfl, by show Step.removeRootPost ∉
      [Step.inMemoryBuild, Step.removeRootPre, Step.materializeFS]; decide⟩,
    ⟨rfl, by show Step.removeRootPost ∉
      [Step.inMemoryBuild, Step.removeRootPre, Step.materializeFS, Step.fsRootedBuild]; decide⟩,
    ⟨_, rfl⟩⟩
  cases r1 <;> cases r2 <;> cases fsb <;> cases r3 <;> exact ⟨_, rfl⟩

/-- C1: the reproducible build is not a deterministic function of the
Package Model alone.  With two files under distinct plugin directories of
the provisioning namespace and no pre-existing requirements,
`doMagicalHoloIntegration` appends the two synthesized requirements in Go
map iteration order, which is unspecified and may differ between runs;
both orders below are permutations of the detected plugin set, yet the
`.PKGINFO` contents produced in reproducible mode differ.  This contradicts
the Generator contract's own documentation ("The package must be built
reproducibly; such that every run (even across systems) produces an
identical result"). -/
theorem c1_reproducible_output_nondeterministic :
    (["aaa", "bbb"].Perm (pluginsOf twoPluginPkg) ∧
     ["bbb", "aaa"].Perm (pluginsOf twoPluginPkg)) ∧
    pkginfoContents
        (postponeUnmaterializableFSMetadata
          (doMagicalHoloIntegration twoPluginPkg ["aaa", "bbb"]))
        true "v" 0 ≠
      pkginfoContents
        (postponeUnmaterializableFSMetadata
          (doMagicalHoloIntegration twoPluginPkg ["bbb", "aaa"]))
        true "v" 0 := by
  decide

/-- C7 witness: concrete generator behaviors, via `c7_in_memory_first`: a
failing in-memory build returns its error unchanged without entering the
fallback, and the unsupported-method sentinel enters the fallback. -/
theorem c7_witness :
    buildStrategy ⟨InMemOutcome.failure "boom", .ok [], "a.pkg"⟩ ⟨none, none, none, none⟩ true =
      (.error "boom", [Step.inMemoryBuild]) ∧
    Step.removeRootPre ∈
      (buildStrategy ⟨InMemOutcome.unsupportedMethod, .ok [], "a.pkg"⟩
        ⟨none, none, none, none⟩ true).2 :=
  ⟨(c7_in_memory_first ⟨InMemOutcome.unsupportedMethod, .ok [], "a.pkg"⟩
      ⟨none, none, none, none⟩ true "boom").1,
   ((c7_in_memory_first ⟨InMemOutcome.unsupportedMethod, .ok [], "a.pkg"⟩
      ⟨none, none, none, none⟩ true "boom").2.1).mpr rfl⟩
